import Mathlib

/-!
Verification development for the git-p4son changelist synchronization engine
(`git_p4son/sync.py`).  The Python source is shallowly embedded: strings are
lists of characters, external commands (git, p4, the alias store) are an
explicit environment record, and the observable actions of a run (pull
attempts, reported summaries, forced per-file syncs, conflict reports, the
marker commit) are a trace of events.
-/

namespace GitP4son

/-! ## Decimal rendering and parsing (models the Python str/int builtins) -/

def digitChar (n : Nat) : Char := Char.ofNat (48 + n)

/-- Fuel-driven digit emitter; `natToDecimal` supplies enough fuel. -/
def natToDecimalGo : Nat → Nat → List Char → List Char
  | 0, _, acc => acc
  | fuel + 1, n, acc =>
    if n < 10 then digitChar n :: acc
    else natToDecimalGo fuel (n / 10) (digitChar (n % 10) :: acc)

/-- Decimal digits of a natural number, models Python str on a nonnegative int. -/
def natToDecimal (n : Nat) : List Char := natToDecimalGo (n + 1) n []

/-- Models Python str on an int (sign plus decimal digits). -/
def intToDecimal : Int → List Char
  | Int.ofNat n => natToDecimal n
  | Int.negSucc n => '-' :: natToDecimal (n + 1)

/-- Numeric value of a digit string, models Python int on an all-digit token. -/
def digitsToNat (l : List Char) : Nat :=
  l.foldl (fun n c => 10 * n + (c.toNat - 48)) 0

/-- Models the Python int builtin on the token shapes this program meets:
an optional sign followed by a nonempty run of decimal digits. -/
def pyInt (s : List Char) : Option Int :=
  match s with
  | '-' :: ds =>
    if ds ≠ [] ∧ ds.all Char.isDigit then some (-(digitsToNat ds : Int)) else none
  | '+' :: ds =>
    if ds ≠ [] ∧ ds.all Char.isDigit then some ((digitsToNat ds : Int)) else none
  | ds =>
    if ds ≠ [] ∧ ds.all Char.isDigit then some ((digitsToNat ds : Int)) else none

/-! ## Python string primitives used by sync.py -/

def pyLower (s : List Char) : List Char := s.map Char.toLower

/-- Whitespace characters stripped by Python str.rstrip with no argument
(the ASCII ones; the source only meets ASCII output). -/
def isPySpace (c : Char) : Bool :=
  c == ' ' || c == Char.ofNat 9 || c == Char.ofNat 10 || c == Char.ofNat 13 ||
    c == Char.ofNat 11 || c == Char.ofNat 12

/-- Models Python str.rstrip(): drop trailing whitespace. -/
def pyRstrip (l : List Char) : List Char :=
  (l.reverse.dropWhile isPySpace).reverse

/-- Fuel-driven splitter; each step consumes at least one character when the
separator is nonempty, so `pySplit` supplies enough fuel. -/
def splitOnFuel (sep : List Char) : Nat → List Char → List (List Char)
  | 0, l => [l]
  | _ + 1, [] => [[]]
  | fuel + 1, c :: rest =>
    if sep.isPrefixOf (c :: rest) && !sep.isEmpty then
      [] :: splitOnFuel sep fuel ((c :: rest).drop sep.length)
    else
      match splitOnFuel sep fuel rest with
      | [] => [[c]]
      | h :: t => (c :: h) :: t

/-- Models Python str.split(sep) for a nonempty separator: the pieces between
the non-overlapping left-to-right occurrences of `sep`. -/
def pySplit (sep l : List Char) : List (List Char) := splitOnFuel sep l.length l

/-- Does `sep` occur as a contiguous substring (at any position)? -/
def occursIn (sep : List Char) : List Char → Bool
  | [] => sep.isEmpty
  | c :: rest => sep.isPrefixOf (c :: rest) || occursIn sep rest

/-- Text before and after the first occurrence of `sep`, if any. -/
def findSplit (sep : List Char) : List Char → Option (List Char × List Char)
  | [] => if sep.isEmpty then some ([], []) else none
  | c :: rest =>
    if sep.isPrefixOf (c :: rest) then some ([], (c :: rest).drop sep.length)
    else
      match findSplit sep rest with
      | some (a, b) => some (c :: a, b)
      | none => none

/-! ## Conflict extraction (sync.py, get_writable_files) -/

/-- The apostrophe character, kept out of string literals. -/
def apos : Char := Char.ofNat 39

/-- The fixed p4 stderr marker for a writable-file clobber conflict
(the cant_clobber_prefix constant of the source). -/
def cantClobberMark : List Char :=
  'C' :: 'a' :: 'n' :: apos :: 't' :: (" clobber writable file ").toList

def gwfLoop : List (List Char) → List (List Char) → List (List Char)
  | [], acc => acc
  | line :: rest, acc =>
    if cantClobberMark.isPrefixOf line then
      gwfLoop rest (acc ++ [pyRstrip (line.drop cantClobberMark.length)])
    else gwfLoop rest acc

/-- Extract writable files from p4 sync stderr output (sync.py lines 14-23). -/
def get_writable_files (stderr_lines : List (List Char)) : List (List Char) :=
  gwfLoop stderr_lines []

/-! ## Line classifier (sync.py, parse_p4_sync_line) -/

/-- The four recognized patterns, in the precedence order of the source. -/
def sync_patterns : List (List Char × List Char) :=
  [(("add").toList, (" - added as ").toList),
   (("del").toList, (" - deleted as ").toList),
   (("upd").toList, (" - updating ").toList),
   (("clb").toList, cantClobberMark)]

def parseLoop (line : List Char) : List (List Char × List Char) → Option (List Char × List Char)
  | [] => none
  | (mode, pat) :: rest =>
    let tokens := pySplit pat line
    if tokens.length = 2 then some (mode, tokens.getD 1 [])
    else parseLoop line rest

/-- Parse a line from p4 sync output (sync.py lines 26-39).  The Python pair
(None, None) is modelled as `none`. -/
def parse_p4_sync_line (line : List Char) : Option (List Char × List Char) :=
  parseLoop line sync_patterns

/-! ## Stream aggregator (sync.py, P4SyncOutputProcessor) -/

structure P4SyncOutputProcessor where
  synced_file_count : Nat
  file_count_to_sync : Int
  add : Nat
  del : Nat
  upd : Nat
  clb : Nat
  deriving DecidableEq

def initProcessor (file_count_to_sync : Int) : P4SyncOutputProcessor :=
  ⟨0, file_count_to_sync, 0, 0, 0, 0⟩

/-- Tail of the up-to-date notice recognized by the processor's regex. -/
def upToDateTail : List Char := (" - file(s) up-to-date.").toList

/-- One anchored test of the regex two slashes, three arbitrary non-newline
characters, an at sign, one or more digits, then the literal tail. -/
def upToDateAt (l : List Char) : Bool :=
  match l with
  | '/' :: '/' :: a :: b :: c :: '@' :: rest =>
    (a != Char.ofNat 10) && (b != Char.ofNat 10) && (c != Char.ofNat 10) &&
      !(rest.takeWhile Char.isDigit).isEmpty &&
      upToDateTail.isPrefixOf (rest.dropWhile Char.isDigit)
  | _ => false

/-- Models re.search of the up-to-date pattern: a match at any position. -/
def upToDateSearch : List Char → Bool
  | [] => false
  | c :: rest => upToDateAt (c :: rest) || upToDateSearch rest

/-- The per-kind count bump of the processor body: the mode key is looked up
in the stats table, then the processed counter advances unconditionally. -/
def bumpMode (p : P4SyncOutputProcessor) (mode : List Char) : P4SyncOutputProcessor :=
  let p1 :=
    if mode = ("add").toList then { p with add := p.add + 1 }
    else if mode = ("del").toList then { p with del := p.del + 1 }
    else if mode = ("upd").toList then { p with upd := p.upd + 1 }
    else if mode = ("clb").toList then { p with clb := p.clb + 1 }
    else p
  { p1 with synced_file_count := p1.synced_file_count + 1 }

/-- The processor call operator (sync.py lines 59-77).  An empty mode or
filename is falsy in Python, so such lines are treated as unparsable. -/
def callLine (p : P4SyncOutputProcessor) (line : List Char) : P4SyncOutputProcessor :=
  if upToDateSearch line then p
  else
    match parse_p4_sync_line line with
    | none => p
    | some (mode, filename) =>
      if mode = [] ∨ filename = [] then p
      else bumpMode p mode

def joinComma : List (List Char) → List Char
  | [] => []
  | [s] => s
  | s :: rest => s ++ (", ").toList ++ joinComma rest

/-- The derived synced total of the summary line. -/
def syncedCount (p : P4SyncOutputProcessor) : Int :=
  (p.add : Int) + (p.upd : Int) - (p.clb : Int)

/-- Get a one-line sync summary (sync.py lines 79-95). -/
def get_summary (p : P4SyncOutputProcessor) : List Char :=
  let parts : List (List Char) :=
    (if p.add ≠ 0 then [("add: ").toList ++ natToDecimal p.add] else []) ++
    (if p.upd ≠ 0 then [("upd: ").toList ++ natToDecimal p.upd] else []) ++
    (if p.del ≠ 0 then [("del: ").toList ++ natToDecimal p.del] else []) ++
    (if p.clb ≠ 0 then [("clb: ").toList ++ natToDecimal p.clb] else [])
  let detail := joinComma parts
  if detail ≠ [] then
    ("synced ").toList ++ intToDecimal (syncedCount p) ++ (" files (").toList ++ detail ++ [')']
  else
    ("synced ").toList ++ intToDecimal (syncedCount p) ++ (" files").toList

/-! ## Marker commit parsing and writing -/

/-- The literal middle of the marker pattern between identifier and digits. -/
def markerMid : List Char := (": p4 sync //...@").toList

/-- After the identifier, the message must continue with the literal middle
and then one or more digits up to the end of the line. -/
def parseAfterIdent (rest : List Char) : Option Nat :=
  if markerMid.isPrefixOf rest then
    let ds := rest.drop markerMid.length
    if ds ≠ [] ∧ ds.all Char.isDigit then some (digitsToNat ds) else none
  else none

/-- Models the anchored regex of git_changelist_of_last_sync: an identifier
that is a digit run, the legacy tag pergit, or the current tag git-p4son,
then the literal middle, then the captured digits. -/
def parseMarkerMsg (msg : List Char) : Option Nat :=
  let ds := msg.takeWhile Char.isDigit
  if ds ≠ [] then parseAfterIdent (msg.drop ds.length)
  else if ("pergit").toList.isPrefixOf msg then parseAfterIdent (msg.drop 6)
  else if ("git-p4son").toList.isPrefixOf msg then parseAfterIdent (msg.drop 9)
  else none

/-- Get the changelist number from the most recent sync commit
(sync.py lines 179-194); the argument is the git log query output. -/
def git_changelist_of_last_sync (stdout_lines : List (List Char)) : Option Nat :=
  match stdout_lines with
  | [] => none
  | msg :: _ => parseMarkerMsg msg

/-- The commit message written after a successful sync (sync.py line 328). -/
def mk_commit_msg (changelist : Int) : List Char :=
  ("git-p4son: p4 sync //...@").toList ++ intToDecimal changelist

/-! ## Environment and observable events of a run

External commands are modelled by an environment record: the two cleanliness
checks, the git log query feeding the marker parser, the latest-changelist
query (none models its CommandError), the alias store lookup, the dry-run
file count, the streamed pull output with its optional RunError stderr, and
the streamed output of a forced single-file sync.  Observable actions are a
trace of events; log formatting is not modelled except where it reports the
data the claims are about. -/

structure Env where
  git_clean : Bool
  p4_clean : Bool
  git_clean_after : Bool
  sync_log : List (List Char)
  latest : Option Int
  resolve : List Char → Option (List Char)
  dryCount : Int → Nat
  pullRun : Int → List (List Char) × Option (List (List Char))
  forceLines : Int → List Char → List (List Char)

structure Args where
  changelist : List Char
  force : Bool

inductive Event where
  | pull (changelist : Int)
  | summary (s : List Char)
  | forceFile (changelist : Int) (path : List Char)
  | conflicts (paths : List (List Char))
  | addAll
  | commit (msg : List Char)
  deriving DecidableEq

inductive RunOutcome where
  | exit (code : Nat)
  | raised
  deriving DecidableEq

/-- The per-file forced resync loop of the force branch: each conflicting
path gets its own p4_force_sync_file call with a fresh processor whose
expected count is the unknown marker -1, and its own reported summary. -/
def forceSyncEvents (env : Env) (changelist : Int) : List (List Char) → List Event
  | [] => []
  | f :: rest =>
    Event.forceFile changelist f ::
      Event.summary
        (get_summary ((env.forceLines changelist f).foldl callLine (initProcessor (-1)))) ::
      forceSyncEvents env changelist rest

/-- Sync files from Perforce (sync.py lines 116-151).  The Except error is a
re-raised RunError carrying the captured stderr; `Except.ok false` is the
not-completed outcome when writable files block the sync without force. -/
def p4_sync (env : Env) (changelist : Int) (force : Bool) :
    Except (List (List Char)) Bool × List Event :=
  let file_count := env.dryCount changelist
  if file_count = 0 then
    (Except.ok true, [Event.pull changelist])
  else
    let lines := (env.pullRun changelist).1
    let errOpt := (env.pullRun changelist).2
    let proc := lines.foldl callLine (initProcessor (file_count : Int))
    match errOpt with
    | none => (Except.ok true, [Event.pull changelist, Event.summary (get_summary proc)])
    | some stderr =>
      let writable := get_writable_files stderr
      if writable.isEmpty then
        (Except.error stderr, [Event.pull changelist, Event.summary (get_summary proc)])
      else if force then
        (Except.ok true,
          Event.pull changelist :: Event.summary (get_summary proc) ::
            forceSyncEvents env changelist writable)
      else
        (Except.ok false,
          [Event.pull changelist, Event.summary (get_summary proc),
           Event.conflicts writable])

def latestTok : List Char := ("latest").toList

def lastSyncedTok : List Char := ("last-synced").toList

/-- Tail of sync_command from the target pull on (sync.py lines 319-332):
pull the target, then stage and record the marker commit. -/
def finishTarget (env : Env) (force : Bool) (target : Int) (acc : List Event) :
    RunOutcome × List Event :=
  match p4_sync env target force with
  | (Except.error _, evs) => (RunOutcome.raised, acc ++ evs)
  | (Except.ok false, evs) => (RunOutcome.exit 1, acc ++ evs)
  | (Except.ok true, evs) =>
    let stage := if env.git_clean_after = false then [Event.addAll] else []
    (RunOutcome.exit 0,
      acc ++ evs ++ stage ++ [Event.commit (mk_commit_msg target)])

/-- Tail of sync_command after the target is numeric (sync.py lines 297-332):
the no-op check, the backward guard, the re-anchoring pull at the current
position when one exists, then the target pull and the marker commit. -/
def afterResolve (env : Env) (force : Bool) (last : Option Int) (target : Int) :
    RunOutcome × List Event :=
  if last = some target then (RunOutcome.exit 0, [])
  else if (match last with | some lc => decide (target < lc) | none => false) && !force then
    (RunOutcome.exit 1, [])
  else
    match last with
    | some lc =>
      match p4_sync env lc force with
      | (Except.error _, evs) => (RunOutcome.raised, evs)
      | (Except.ok false, evs) => (RunOutcome.exit 1, evs)
      | (Except.ok true, evs) => finishTarget env force target evs
    | none => finishTarget env force target []

/-- The last synced changelist of the run, read from the git log query
(sync.py line 266). -/
def lastOf (env : Env) : Option Int :=
  (git_changelist_of_last_sync env.sync_log).map Int.ofNat

/-- Tail of sync_command after alias resolution (sync.py lines 265-332):
the special targets, the numeric conversion, then the guarded double pull. -/
def syncResolved (env : Env) (force : Bool) (cl : List Char) : RunOutcome × List Event :=
  if pyLower cl = lastSyncedTok then
    match lastOf env with
    | none => (RunOutcome.exit 1, [])
    | some lc =>
      match p4_sync env lc force with
      | (Except.error _, evs) => (RunOutcome.raised, evs)
      | (Except.ok false, evs) => (RunOutcome.exit 1, evs)
      | (Except.ok true, evs) => (RunOutcome.exit 0, evs)
  else if pyLower cl = latestTok then
    match env.latest with
    | none => (RunOutcome.raised, [])
    | some t => afterResolve env force (lastOf env) t
  else
    match pyInt cl with
    | none => (RunOutcome.exit 1, [])
    | some t => afterResolve env force (lastOf env) t

/-- Execute the sync command (sync.py lines 234-332). -/
def sync_command (env : Env) (args : Args) : RunOutcome × List Event :=
  if env.git_clean = false then (RunOutcome.exit 1, [])
  else if env.p4_clean = false then (RunOutcome.exit 1, [])
  else
    match
      (if pyLower args.changelist ≠ latestTok ∧ pyLower args.changelist ≠ lastSyncedTok then
        env.resolve args.changelist
      else some args.changelist) with
    | none => (RunOutcome.exit 1, [])
    | some cl => syncResolved env args.force cl

/-! ## Trace observers -/

def isCommitEv : Event → Bool
  | Event.commit _ => true
  | _ => false

def getPull : Event → Option Int
  | Event.pull cl => some cl
  | _ => none

/-- The changelists of the pull attempts of a trace, in order. -/
def pullsOf (evs : List Event) : List Int := evs.filterMap getPull

/-- Does the trace record a marker commit? -/
def hasCommit (evs : List Event) : Bool := evs.any isCommitEv

/-! ## Lemmas about the splitter -/

theorem splitOnFuel_ne_nil (sep : List Char) :
    ∀ fuel l, splitOnFuel sep fuel l ≠ [] := by
  intro fuel
  induction fuel with
  | zero => intro l; simp [splitOnFuel]
  | succ f ih =>
    intro l
    cases l with
    | nil => simp [splitOnFuel]
    | cons c rest =>
      simp only [splitOnFuel]
      split
      · simp
      · cases h : splitOnFuel sep f rest with
        | nil => simp
        | cons a t => simp

theorem splitOnFuel_congr (sep : List Char) :
    ∀ fuel₁ fuel₂ l, l.length ≤ fuel₁ → l.length ≤ fuel₂ →
      splitOnFuel sep fuel₁ l = splitOnFuel sep fuel₂ l := by
  intro fuel₁
  induction fuel₁ with
  | zero =>
    intro fuel₂ l h1 _
    have hl : l = [] := List.eq_nil_of_length_eq_zero (Nat.le_zero.mp h1)
    subst hl
    cases fuel₂ <;> simp [splitOnFuel]
  | succ f ih =>
    intro fuel₂ l h1 h2
    cases l with
    | nil => cases fuel₂ <;> simp [splitOnFuel]
    | cons c rest =>
      cases fuel₂ with
      | zero => simp at h2
      | succ f₂ =>
        simp only [splitOnFuel]
        by_cases hc : (sep.isPrefixOf (c :: rest) && !sep.isEmpty) = true
        · rw [if_pos hc, if_pos hc]
          have hsep : 1 ≤ sep.length := by
            rw [Bool.and_eq_true] at hc
            cases sep with
            | nil => simp at hc
            | cons a t => simp
          have hL : ((c :: rest).drop sep.length).length ≤ f := by
            rw [List.length_drop]
            simp only [List.length_cons] at h1 ⊢
            omega
          have hL2 : ((c :: rest).drop sep.length).length ≤ f₂ := by
            rw [List.length_drop]
            simp only [List.length_cons] at h2 ⊢
            omega
          rw [ih f₂ ((c :: rest).drop sep.length) hL hL2]
        · rw [if_neg hc, if_neg hc]
          have hL : rest.length ≤ f := by
            simp only [List.length_cons] at h1; omega
          have hL2 : rest.length ≤ f₂ := by
            simp only [List.length_cons] at h2; omega
          rw [ih f₂ rest hL hL2]

theorem splitOnFuel_of_not_occurs (sep : List Char) :
    ∀ l, occursIn sep l = false → ∀ fuel, splitOnFuel sep fuel l = [l] := by
  intro l
  induction l with
  | nil =>
    intro _ fuel
    cases fuel <;> simp [splitOnFuel]
  | cons c rest ih =>
    intro h fuel
    rw [occursIn, Bool.or_eq_false_iff] at h
    cases fuel with
    | zero => simp [splitOnFuel]
    | succ f =>
      simp only [splitOnFuel, h.1, Bool.false_and, if_neg (by simp : ¬(false = true))]
      rw [ih h.2 f]

theorem findSplit_isSome (sep : List Char) :
    ∀ l, (findSplit sep l).isSome = occursIn sep l := by
  intro l
  induction l with
  | nil =>
    simp only [findSplit, occursIn]
    split <;> simp_all
  | cons c rest ih =>
    simp only [findSplit, occursIn]
    by_cases hp : sep.isPrefixOf (c :: rest) = true
    · simp [hp]
    · rw [if_neg hp]
      have hp' : sep.isPrefixOf (c :: rest) = false := Bool.eq_false_iff.mpr hp
      cases h : findSplit sep rest with
      | none =>
        rw [h] at ih
        simp only [Option.isSome_none] at ih
        simp [hp', ← ih]
      | some ab =>
        obtain ⟨a, b⟩ := ab
        rw [h] at ih
        simp only [Option.isSome_some] at ih
        simp [hp', ← ih]

theorem findSplit_none_of_not_occurs (sep l : List Char) (h : occursIn sep l = false) :
    findSplit sep l = none := by
  have := findSplit_isSome sep l
  rw [h] at this
  exact Option.not_isSome_iff_eq_none.mp (by simp [this])

theorem occurs_of_findSplit (sep l : List Char) {a b : List Char}
    (h : findSplit sep l = some (a, b)) : occursIn sep l = true := by
  have := findSplit_isSome sep l
  rw [h] at this
  simpa using this.symm

theorem splitOnFuel_of_findSplit (sep : List Char) (hsep : sep ≠ []) :
    ∀ l a b, findSplit sep l = some (a, b) → ∀ fuel, l.length ≤ fuel →
      splitOnFuel sep fuel l = a :: splitOnFuel sep b.length b := by
  intro l
  induction l with
  | nil =>
    intro a b h
    simp only [findSplit] at h
    rw [if_neg (by simpa using hsep)] at h
    exact absurd h (by simp)
  | cons c rest ih =>
    intro a b h fuel hfuel
    cases fuel with
    | zero => simp at hfuel
    | succ f =>
      by_cases hp : sep.isPrefixOf (c :: rest) = true
      · rw [findSplit, if_pos hp] at h
        have ha : a = [] := by
          have := (Option.some.injEq _ _).mp h
          exact (congrArg Prod.fst this).symm
        have hb : b = (c :: rest).drop sep.length := by
          have := (Option.some.injEq _ _).mp h
          exact (congrArg Prod.snd this).symm
        have hcond : (sep.isPrefixOf (c :: rest) && !sep.isEmpty) = true := by
          simp [hp, hsep]
        rw [splitOnFuel, if_pos hcond, ha, hb]
        have hsl : 1 ≤ sep.length := by
          cases sep with
          | nil => exact absurd rfl hsep
          | cons x xs => simp
        have hL : ((c :: rest).drop sep.length).length ≤ f := by
          rw [List.length_drop]
          simp only [List.length_cons] at hfuel ⊢
          omega
        rw [splitOnFuel_congr sep f ((c :: rest).drop sep.length).length
          ((c :: rest).drop sep.length) hL le_rfl]
      · rw [findSplit, if_neg hp] at h
        cases hfs : findSplit sep rest with
        | none => rw [hfs] at h; exact absurd h (by simp)
        | some ab =>
          obtain ⟨a', b'⟩ := ab
          rw [hfs] at h
          simp only [Option.some.injEq, Prod.mk.injEq] at h
          have hcond : (sep.isPrefixOf (c :: rest) && !sep.isEmpty) = false := by
            simp [Bool.eq_false_iff.mpr hp]
          rw [splitOnFuel, hcond]
          simp only [Bool.false_eq_true, if_false]
          have hL : rest.length ≤ f := by
            simp only [List.length_cons] at hfuel; omega
          rw [ih a' b' hfs f hL, ← h.2, ← h.1]

theorem pySplit_of_not_occurs (sep l : List Char) (h : occursIn sep l = false) :
    pySplit sep l = [l] :=
  splitOnFuel_of_not_occurs sep l h l.length

theorem pySplit_two (sep l a b : List Char) (hsep : sep ≠ [])
    (h : findSplit sep l = some (a, b)) (hb : occursIn sep b = false) :
    pySplit sep l = [a, b] := by
  unfold pySplit
  rw [splitOnFuel_of_findSplit sep hsep l a b h l.length le_rfl,
    splitOnFuel_of_not_occurs sep b hb]

theorem pySplit_length_ge_three (sep l a b : List Char) (hsep : sep ≠ [])
    (h : findSplit sep l = some (a, b)) (hb : occursIn sep b = true) :
    3 ≤ (pySplit sep l).length := by
  unfold pySplit
  rw [splitOnFuel_of_findSplit sep hsep l a b h l.length le_rfl]
  have hsome : (findSplit sep b).isSome = true := by
    rw [findSplit_isSome sep b, hb]
  obtain ⟨ab, hab⟩ := Option.isSome_iff_exists.mp hsome
  obtain ⟨a₂, b₂⟩ := ab
  rw [splitOnFuel_of_findSplit sep hsep b a₂ b₂ hab b.length le_rfl]
  have := splitOnFuel_ne_nil sep b₂.length b₂
  cases hsp : splitOnFuel sep b₂.length b₂ with
  | nil => exact absurd hsp this
  | cons x xs => simp


/-! ## Restated classifier for the amended precedence claim

The specification describes the three non-clobber shapes as matching when the
line merely contains the phrase.  The source's criterion is strictly
stronger: a pattern matches only when the phrase occurs exactly once
(non-overlapping), since the splitting must produce exactly two pieces — a
line holding a phrase twice does not match that pattern at all.  The
definitions below restate the classifier with that amended matching notion:
the four patterns in the stated precedence order, first match wins, and the
resulting path is the text following the phrase; a line matching no pattern
yields none. -/

def matchOnce (sep l : List Char) : Option (List Char) :=
  match findSplit sep l with
  | some (_, b) => if occursIn sep b then none else some b
  | none => none

def classifyLoop (line : List Char) :
    List (List Char × List Char) → Option (List Char × List Char)
  | [] => none
  | (mode, pat) :: rest =>
    match matchOnce pat line with
    | some b => some (mode, b)
    | none => classifyLoop line rest

def classify_spec (line : List Char) : Option (List Char × List Char) :=
  classifyLoop line sync_patterns

theorem parseLoop_step (mode pat : List Char) (rest : List (List Char × List Char))
    (line : List Char) (hsep : pat ≠ []) :
    parseLoop line ((mode, pat) :: rest) =
      match matchOnce pat line with
      | some b => some (mode, b)
      | none => parseLoop line rest := by
  have heq : parseLoop line ((mode, pat) :: rest) =
      if (pySplit pat line).length = 2 then some (mode, (pySplit pat line).getD 1 [])
      else parseLoop line rest := rfl
  rw [heq]
  unfold matchOnce
  cases hfs : findSplit pat line with
  | none =>
    have hocc : occursIn pat line = false := by
      have := findSplit_isSome pat line
      rw [hfs] at this
      simpa using this.symm
    rw [pySplit_of_not_occurs pat line hocc]
    simp
  | some ab =>
    obtain ⟨a, b⟩ := ab
    by_cases hb : occursIn pat b = true
    · have h3 := pySplit_length_ge_three pat line a b hsep hfs hb
      have hne : ¬((pySplit pat line).length = 2) := by omega
      rw [if_neg hne]
      simp [hb]
    · have h2 := pySplit_two pat line a b hsep hfs (Bool.eq_false_iff.mpr hb)
      rw [h2]
      simp [hb, List.getD]

theorem parseLoop_eq_classifyLoop (line : List Char) :
    ∀ ps : List (List Char × List Char), (∀ p ∈ ps, p.2 ≠ []) →
      parseLoop line ps = classifyLoop line ps := by
  intro ps
  induction ps with
  | nil => intro _; rfl
  | cons hd tl ih =>
    intro hall
    obtain ⟨mode, pat⟩ := hd
    rw [parseLoop_step mode pat tl line (hall (mode, pat) (by simp))]
    rw [classifyLoop]
    cases matchOnce pat line with
    | none => exact ih fun p hp => hall p (by simp [hp])
    | some b => rfl

/-! ## Lemmas about conflict extraction -/

theorem gwfLoop_eq (lines : List (List Char)) :
    ∀ acc, gwfLoop lines acc =
      acc ++ (lines.filter (fun l => cantClobberMark.isPrefixOf l)).map
        (fun l => pyRstrip (l.drop cantClobberMark.length)) := by
  induction lines with
  | nil => intro acc; simp [gwfLoop]
  | cons line rest ih =>
    intro acc
    rw [gwfLoop]
    by_cases h : cantClobberMark.isPrefixOf line = true
    · rw [if_pos h, ih, List.filter_cons, if_pos h, List.map_cons]
      simp
    · rw [if_neg h, ih, List.filter_cons, if_neg h]

/-! ## Lemmas about decimal rendering -/

theorem natToDecimalGo_acc :
    ∀ fuel n acc, natToDecimalGo fuel n acc = natToDecimalGo fuel n [] ++ acc := by
  intro fuel
  induction fuel with
  | zero => intro n acc; simp [natToDecimalGo]
  | succ f ih =>
    intro n acc
    by_cases h : n < 10
    · simp [natToDecimalGo, h]
    · rw [natToDecimalGo, if_neg h, natToDecimalGo, if_neg h,
        ih (n / 10) (digitChar (n % 10) :: acc), ih (n / 10) [digitChar (n % 10)]]
      simp

theorem natToDecimalGo_fuel :
    ∀ fuel₁ fuel₂ n acc, n < fuel₁ → n < fuel₂ →
      natToDecimalGo fuel₁ n acc = natToDecimalGo fuel₂ n acc := by
  intro fuel₁
  induction fuel₁ with
  | zero => intro fuel₂ n acc h1 _; omega
  | succ f ih =>
    intro fuel₂ n acc h1 h2
    cases fuel₂ with
    | zero => omega
    | succ f₂ =>
      by_cases h : n < 10
      · simp [natToDecimalGo, h]
      · rw [natToDecimalGo, if_neg h, natToDecimalGo, if_neg h]
        have hdiv : n / 10 < n := Nat.div_lt_self (by omega) (by omega)
        exact ih f₂ (n / 10) (digitChar (n % 10) :: acc) (by omega) (by omega)

theorem natToDecimal_unfold (n : Nat) :
    natToDecimal n =
      if n < 10 then [digitChar n]
      else natToDecimal (n / 10) ++ [digitChar (n % 10)] := by
  by_cases h : n < 10
  · simp [natToDecimal, natToDecimalGo, h]
  · rw [if_neg h, natToDecimal, natToDecimalGo, if_neg h,
      natToDecimalGo_acc n (n / 10) [digitChar (n % 10)]]
    have hdiv : n / 10 < n := Nat.div_lt_self (by omega) (by omega)
    rw [natToDecimalGo_fuel n (n / 10 + 1) (n / 10) [] (by omega) (by omega)]
    rfl

theorem digitChar_isDigit : ∀ d, d < 10 → Char.isDigit (digitChar d) = true := by decide

theorem digitChar_val : ∀ d, d < 10 → (digitChar d).toNat - 48 = d := by decide

theorem natToDecimal_all_digits (n : Nat) :
    ∀ c ∈ natToDecimal n, Char.isDigit c = true := by
  induction n using Nat.strong_induction_on with
  | _ n ih =>
    rw [natToDecimal_unfold]
    by_cases h : n < 10
    · rw [if_pos h]
      intro c hc
      simp only [List.mem_singleton] at hc
      rw [hc]
      exact digitChar_isDigit n h
    · rw [if_neg h]
      intro c hc
      rcases List.mem_append.mp hc with hl | hr
      · exact ih (n / 10) (Nat.div_lt_self (by omega) (by omega)) c hl
      · simp only [List.mem_singleton] at hr
        rw [hr]
        exact digitChar_isDigit (n % 10) (Nat.mod_lt n (by omega))

theorem natToDecimal_ne_nil (n : Nat) : natToDecimal n ≠ [] := by
  rw [natToDecimal_unfold]
  by_cases h : n < 10
  · simp [h]
  · simp [h]

theorem digitsToNat_append_digit (ds : List Char) (c : Char) :
    digitsToNat (ds ++ [c]) = 10 * digitsToNat ds + (c.toNat - 48) := by
  unfold digitsToNat
  rw [List.foldl_append]
  rfl

theorem digitsToNat_natToDecimal (n : Nat) : digitsToNat (natToDecimal n) = n := by
  induction n using Nat.strong_induction_on with
  | _ n ih =>
    rw [natToDecimal_unfold]
    by_cases h : n < 10
    · rw [if_pos h]
      show 10 * 0 + ((digitChar n).toNat - 48) = n
      rw [digitChar_val n h]
      omega
    · rw [if_neg h, digitsToNat_append_digit,
        ih (n / 10) (Nat.div_lt_self (by omega) (by omega)),
        digitChar_val (n % 10) (Nat.mod_lt n (by omega))]
      omega

theorem intToDecimal_ofNat (n : Nat) : intToDecimal (Int.ofNat n) = natToDecimal n := rfl

/-! ## Prefix and takeWhile helpers -/

theorem isPrefixOf_append_self :
    ∀ (l t : List Char), l.isPrefixOf (l ++ t) = true := by
  intro l
  induction l with
  | nil => intro t; simp [List.isPrefixOf]
  | cons c rest ih => intro t; simp [List.isPrefixOf, ih]

theorem isPrefixOf_append_of_le :
    ∀ (pat conc ext : List Char), pat.length ≤ conc.length →
      pat.isPrefixOf (conc ++ ext) = pat.isPrefixOf conc := by
  intro pat
  induction pat with
  | nil => intro conc ext _; simp [List.isPrefixOf]
  | cons a as ih =>
    intro conc ext h
    cases conc with
    | nil => simp at h
    | cons c cs =>
      simp only [List.cons_append, List.isPrefixOf, List.append_eq]
      rw [ih cs ext (by simpa using h)]

theorem takeWhile_append_all (f : Char → Bool) :
    ∀ (l t : List Char), (∀ c ∈ l, f c = true) →
      (l ++ t).takeWhile f = l ++ t.takeWhile f := by
  intro l
  induction l with
  | nil => intro t _; rfl
  | cons c rest ih =>
    intro t hall
    rw [List.cons_append, List.takeWhile_cons, if_pos (hall c (by simp)),
      ih t fun x hx => hall x (by simp [hx])]
    rfl

theorem takeWhile_append_stop (f : Char → Bool) :
    ∀ (conc ext : List Char), conc.takeWhile f ≠ conc →
      (conc ++ ext).takeWhile f = conc.takeWhile f := by
  intro conc
  induction conc with
  | nil => intro ext h; exact absurd rfl h
  | cons c rest ih =>
    intro ext h
    by_cases hc : f c = true
    · rw [List.takeWhile_cons, if_pos hc] at h
      rw [List.cons_append, List.takeWhile_cons, if_pos hc, List.takeWhile_cons, if_pos hc,
        ih ext fun heq => h (by rw [heq])]
    · rw [List.cons_append, List.takeWhile_cons, if_neg hc, List.takeWhile_cons, if_neg hc]

theorem findSplit_at_head (sep rest : List Char) (hsep : sep ≠ []) :
    findSplit sep (sep ++ rest) = some ([], rest) := by
  cases sep with
  | nil => exact absurd rfl hsep
  | cons c cs =>
    have hpre : (c :: cs).isPrefixOf (c :: (cs ++ rest)) = true := by
      rw [← List.cons_append]
      exact isPrefixOf_append_self (c :: cs) rest
    rw [List.cons_append, findSplit, if_pos hpre]
    have hdrop : (c :: (cs ++ rest)).drop (c :: cs).length = rest := by
      rw [← List.cons_append, List.drop_left]
    rw [hdrop]

/-! ## Marker round-trip lemmas -/

theorem parseAfterIdent_digits (p : Nat) :
    parseAfterIdent (markerMid ++ natToDecimal p) = some p := by
  rw [parseAfterIdent, if_pos (isPrefixOf_append_self markerMid (natToDecimal p))]
  simp only [List.drop_left]
  rw [if_pos ⟨natToDecimal_ne_nil p, List.all_eq_true.mpr (natToDecimal_all_digits p)⟩,
    digitsToNat_natToDecimal]

theorem parseMarkerMsg_current (p : Nat) :
    parseMarkerMsg (("git-p4son").toList ++ markerMid ++ natToDecimal p) = some p := by
  rw [parseMarkerMsg]
  have hsplit : ("git-p4son").toList ++ markerMid ++ natToDecimal p =
      ("git-p4son").toList ++ (markerMid ++ natToDecimal p) := by
    rw [List.append_assoc]
  have htw : (("git-p4son").toList ++ markerMid ++ natToDecimal p).takeWhile Char.isDigit
      = [] := by
    rw [hsplit, takeWhile_append_stop Char.isDigit _ _ (by decide)]
    decide
  rw [htw]
  simp only [ne_eq, not_true_eq_false, if_false, List.length_nil, List.drop_zero]
  have hper : ("pergit").toList.isPrefixOf
      (("git-p4son").toList ++ markerMid ++ natToDecimal p) = false := by
    rw [hsplit, isPrefixOf_append_of_le _ _ _ (by decide)]
    decide
  rw [hper]
  simp only [Bool.false_eq_true, if_false]
  have hgit : ("git-p4son").toList.isPrefixOf
      (("git-p4son").toList ++ markerMid ++ natToDecimal p) = true := by
    rw [hsplit]
    exact isPrefixOf_append_self _ _
  rw [hgit]
  simp only [if_true]
  have hdrop : (("git-p4son").toList ++ markerMid ++ natToDecimal p).drop 9 =
      markerMid ++ natToDecimal p := by
    rw [hsplit]
    have : (9 : Nat) = ("git-p4son").toList.length := by decide
    rw [this, List.drop_left]
  rw [hdrop, parseAfterIdent_digits]

theorem parseMarkerMsg_pergit (p : Nat) :
    parseMarkerMsg (("pergit").toList ++ markerMid ++ natToDecimal p) = some p := by
  rw [parseMarkerMsg]
  have hsplit : ("pergit").toList ++ markerMid ++ natToDecimal p =
      ("pergit").toList ++ (markerMid ++ natToDecimal p) := by
    rw [List.append_assoc]
  have htw : (("pergit").toList ++ markerMid ++ natToDecimal p).takeWhile Char.isDigit
      = [] := by
    rw [hsplit, takeWhile_append_stop Char.isDigit _ _ (by decide)]
    decide
  rw [htw]
  simp only [ne_eq, not_true_eq_false, if_false, List.length_nil, List.drop_zero]
  have hper : ("pergit").toList.isPrefixOf
      (("pergit").toList ++ markerMid ++ natToDecimal p) = true := by
    rw [hsplit]
    exact isPrefixOf_append_self _ _
  rw [hper]
  simp only [if_true]
  have hdrop : (("pergit").toList ++ markerMid ++ natToDecimal p).drop 6 =
      markerMid ++ natToDecimal p := by
    rw [hsplit]
    have : (6 : Nat) = ("pergit").toList.length := by decide
    rw [this, List.drop_left]
  rw [hdrop, parseAfterIdent_digits]

theorem parseMarkerMsg_numeric (n p : Nat) :
    parseMarkerMsg (natToDecimal n ++ markerMid ++ natToDecimal p) = some p := by
  rw [parseMarkerMsg]
  have hsplit : natToDecimal n ++ markerMid ++ natToDecimal p =
      natToDecimal n ++ (markerMid ++ natToDecimal p) := by
    rw [List.append_assoc]
  have htw : (natToDecimal n ++ markerMid ++ natToDecimal p).takeWhile Char.isDigit
      = natToDecimal n := by
    rw [hsplit, takeWhile_append_all Char.isDigit _ _ (natToDecimal_all_digits n)]
    have : (markerMid ++ natToDecimal p).takeWhile Char.isDigit = [] := by
      rw [takeWhile_append_stop Char.isDigit _ _ (by decide)]
      decide
    rw [this, List.append_nil]
  rw [htw, if_pos (natToDecimal_ne_nil n)]
  have hdrop : (natToDecimal n ++ markerMid ++ natToDecimal p).drop
      (natToDecimal n).length = markerMid ++ natToDecimal p := by
    rw [hsplit, List.drop_left]
  rw [hdrop, parseAfterIdent_digits]

/-! ## Trace lemmas about one pull attempt -/

theorem forceSyncEvents_no_pull (env : Env) (cl : Int) :
    ∀ fs, List.filterMap getPull (forceSyncEvents env cl fs) = [] := by
  intro fs
  induction fs with
  | nil => rfl
  | cons f rest ih => simp [forceSyncEvents, List.filterMap_cons, getPull, ih]

theorem forceSyncEvents_no_commit (env : Env) (cl : Int) :
    ∀ fs, (forceSyncEvents env cl fs).any isCommitEv = false := by
  intro fs
  induction fs with
  | nil => rfl
  | cons f rest ih => simp [forceSyncEvents, isCommitEv, ih]

theorem pulls_p4_sync (env : Env) (cl : Int) (force : Bool) :
    pullsOf (p4_sync env cl force).2 = [cl] := by
  unfold pullsOf
  simp only [p4_sync]
  split
  · rfl
  · split
    · rfl
    · split
      · rfl
      · split
        · simp [List.filterMap_cons, getPull, forceSyncEvents_no_pull]
        · rfl

theorem p4_sync_no_commit (env : Env) (cl : Int) (force : Bool) :
    hasCommit (p4_sync env cl force).2 = false := by
  unfold hasCommit
  simp only [p4_sync]
  split
  · rfl
  · split
    · rfl
    · split
      · rfl
      · split
        · simp [isCommitEv, forceSyncEvents_no_commit]
        · rfl

/-- When the dry count is nonzero, the attempt issues the pull and reports
the summary of a fresh processor fed exactly this attempt's output lines. -/
theorem p4_sync_reports (env : Env) (cl : Int) (force : Bool)
    (h0 : env.dryCount cl ≠ 0) :
    ∃ rest, (p4_sync env cl force).2 =
      Event.pull cl ::
        Event.summary (get_summary ((env.pullRun cl).1.foldl callLine
          (initProcessor ((env.dryCount cl : Nat) : Int)))) :: rest := by
  simp only [p4_sync, if_neg h0]
  split
  · exact ⟨[], rfl⟩
  · split
    · exact ⟨[], rfl⟩
    · split
      · exact ⟨_, rfl⟩
      · exact ⟨_, rfl⟩

/-- A failing pull whose stderr has no clobber line re-raises the RunError. -/
theorem p4_sync_fatal (env : Env) (cl : Int) (force : Bool) (stderr : List (List Char))
    (h0 : env.dryCount cl ≠ 0) (herr : (env.pullRun cl).2 = some stderr)
    (hw : ∀ l ∈ stderr, cantClobberMark.isPrefixOf l = false) :
    (p4_sync env cl force).1 = Except.error stderr := by
  have hempty : get_writable_files stderr = [] := by
    rw [get_writable_files, gwfLoop_eq]
    have hfil : stderr.filter (fun l => cantClobberMark.isPrefixOf l) = [] :=
      List.filter_eq_nil_iff.mpr (by intro l hl; simp [hw l hl])
    rw [hfil]
    rfl
  simp only [p4_sync, if_neg h0, herr, hempty]
  rfl

/-- A failing pull whose stderr is entirely clobber lines, without force,
returns the not-completed outcome and reports the conflict list, touching
no file (no forced per-file sync happens). -/
theorem p4_sync_conflicts (env : Env) (cl : Int) (stderr : List (List Char))
    (h0 : env.dryCount cl ≠ 0) (herr : (env.pullRun cl).2 = some stderr)
    (hne : stderr ≠ []) (hw : ∀ l ∈ stderr, cantClobberMark.isPrefixOf l = true) :
    p4_sync env cl false =
      (Except.ok false,
        [Event.pull cl,
         Event.summary (get_summary ((env.pullRun cl).1.foldl callLine
           (initProcessor ((env.dryCount cl : Nat) : Int)))),
         Event.conflicts (get_writable_files stderr)]) := by
  have hlen : (get_writable_files stderr).length = stderr.length := by
    rw [get_writable_files, gwfLoop_eq, List.filter_eq_self.mpr hw]
    simp
  have hnonempty : (get_writable_files stderr).isEmpty = false := by
    cases hgw : get_writable_files stderr with
    | nil =>
      rw [hgw] at hlen
      exact absurd (List.eq_nil_of_length_eq_zero hlen.symm) hne
    | cons x xs => rfl
  simp only [p4_sync, if_neg h0, herr, hnonempty]
  rfl

/-! ## The marker commit happens only on a fully successful run -/

theorem hasCommit_append (a b : List Event) :
    hasCommit (a ++ b) = (hasCommit a || hasCommit b) := List.any_append

theorem p4_sync_snd_no_commit {env : Env} {cl : Int} {force : Bool}
    {r : Except (List (List Char)) Bool} {evs : List Event}
    (h : p4_sync env cl force = (r, evs)) : hasCommit evs = false := by
  have hall := p4_sync_no_commit env cl force
  rw [h] at hall
  exact hall

theorem finishTarget_no_commit (env : Env) (force : Bool) (target : Int)
    (acc : List Event) (hacc : hasCommit acc = false)
    (h : (finishTarget env force target acc).1 ≠ RunOutcome.exit 0) :
    hasCommit (finishTarget env force target acc).2 = false := by
  rcases hp : p4_sync env target force with ⟨r, evs⟩
  have hevs : hasCommit evs = false := p4_sync_snd_no_commit hp
  unfold finishTarget at h ⊢
  rw [hp] at h ⊢
  cases r with
  | error e => simp [hasCommit_append, hacc, hevs]
  | ok b =>
    cases b with
    | false => simp [hasCommit_append, hacc, hevs]
    | true => exact absurd rfl h

theorem afterResolve_no_commit (env : Env) (force : Bool) (last : Option Int)
    (target : Int) (h : (afterResolve env force last target).1 ≠ RunOutcome.exit 0) :
    hasCommit (afterResolve env force last target).2 = false := by
  unfold afterResolve at h ⊢
  by_cases h1 : last = some target
  · rw [if_pos h1] at h ⊢; rfl
  · rw [if_neg h1] at h ⊢
    cases last with
    | none =>
      rw [if_neg (by simp)] at h ⊢
      exact finishTarget_no_commit env force target [] rfl h
    | some lc =>
      by_cases h2 : (decide (target < lc) && !force) = true
      · rw [if_pos h2] at h ⊢; rfl
      · rw [if_neg h2] at h ⊢
        dsimp only at h ⊢
        rcases hp : p4_sync env lc force with ⟨r, evs⟩
        rw [hp] at h
        have hevs : hasCommit evs = false := p4_sync_snd_no_commit hp
        cases r with
        | error e => exact hevs
        | ok b =>
          cases b with
          | false => exact hevs
          | true => exact finishTarget_no_commit env force target evs hevs h

theorem syncResolved_no_commit (env : Env) (force : Bool) (cl : List Char)
    (h : (syncResolved env force cl).1 ≠ RunOutcome.exit 0) :
    hasCommit (syncResolved env force cl).2 = false := by
  unfold syncResolved at h ⊢
  by_cases h1 : pyLower cl = lastSyncedTok
  · rw [if_pos h1] at h ⊢
    cases hl : lastOf env with
    | none => rfl
    | some lc =>
      dsimp only
      rcases hp : p4_sync env lc force with ⟨r, evs⟩
      have hevs : hasCommit evs = false := p4_sync_snd_no_commit hp
      cases r with
      | error e => exact hevs
      | ok b => cases b with
        | false => exact hevs
        | true => exact hevs
  · rw [if_neg h1] at h ⊢
    by_cases h2 : pyLower cl = latestTok
    · rw [if_pos h2] at h ⊢
      cases hl : env.latest with
      | none => rfl
      | some t =>
        rw [hl] at h
        exact afterResolve_no_commit env force (lastOf env) t h
    · rw [if_neg h2] at h ⊢
      cases hi : pyInt cl with
      | none => rfl
      | some t =>
        rw [hi] at h
        exact afterResolve_no_commit env force (lastOf env) t h

theorem sync_command_no_commit (env : Env) (args : Args)
    (h : (sync_command env args).1 ≠ RunOutcome.exit 0) :
    hasCommit (sync_command env args).2 = false := by
  unfold sync_command at h ⊢
  by_cases hg : env.git_clean = false
  · rw [if_pos hg] at h ⊢; rfl
  · rw [if_neg hg] at h ⊢
    by_cases hp4 : env.p4_clean = false
    · rw [if_pos hp4] at h ⊢; rfl
    · rw [if_neg hp4] at h ⊢
      cases hr : (if pyLower args.changelist ≠ latestTok ∧
          pyLower args.changelist ≠ lastSyncedTok then
        env.resolve args.changelist
      else some args.changelist) with
      | none => rfl
      | some cl =>
        rw [hr] at h
        exact syncResolved_no_commit env args.force cl h

/-! ## Specification-side summary line -/

/-- Specification-side summary, written from the specification text: the line
is synced N files with the parenthetical add, upd, del, clb, where
N = A + U - C, zero-valued categories are omitted, and with all four counts
zero the parenthetical is omitted entirely, yielding synced 0 files. -/
def summary_spec (a u d c : Nat) : List Char :=
  if a = 0 ∧ u = 0 ∧ d = 0 ∧ c = 0 then ("synced 0 files").toList
  else
    ("synced ").toList ++ intToDecimal ((a : Int) + (u : Int) - (c : Int)) ++
      (" files (").toList ++
      joinComma
        ((if a ≠ 0 then [("add: ").toList ++ natToDecimal a] else []) ++
         (if u ≠ 0 then [("upd: ").toList ++ natToDecimal u] else []) ++
         (if d ≠ 0 then [("del: ").toList ++ natToDecimal d] else []) ++
         (if c ≠ 0 then [("clb: ").toList ++ natToDecimal c] else [])) ++ [')']

/-- C6: for every aggregator state with per-kind counts A, U, D, C, the
summary is exactly the line synced N files with N = A + U - C, categories
listed in the order add, upd, del, clb with zero-valued ones omitted, and
with all four zero the parenthetical is omitted, yielding synced 0 files. -/
theorem C6_summary_line (n : Nat) (fc : Int) (a d u c : Nat) :
    get_summary ⟨n, fc, a, d, u, c⟩ = summary_spec a u d c := by
  have hadd : ("add: ").toList ≠ [] := by decide
  have hupd : ("upd: ").toList ≠ [] := by decide
  have hdel : ("del: ").toList ≠ [] := by decide
  have hclb : ("clb: ").toList ≠ [] := by decide
  unfold get_summary summary_spec syncedCount
  by_cases ha : a = 0 <;> by_cases hu : u = 0 <;> by_cases hd : d = 0 <;>
    by_cases hc : c = 0 <;>
    (simp [ha, hu, hd, hc, joinComma, hadd, hupd, hdel, hclb]; try decide)

/-- C7: the conflict extractor returns exactly the matched lines' remainders
with trailing whitespace stripped, in encounter order with duplicates
preserved; its length is the number of matching lines, so it is empty
exactly when no line carries the clobber mark. -/
theorem C7_extract_conflicts (lines : List (List Char)) :
    get_writable_files lines =
      (lines.filter (fun l => cantClobberMark.isPrefixOf l)).map
        (fun l => pyRstrip (l.drop cantClobberMark.length)) ∧
    (get_writable_files lines).length =
      (lines.filter (fun l => cantClobberMark.isPrefixOf l)).length := by
  constructor
  · rw [get_writable_files, gwfLoop_eq]
    rfl
  · rw [get_writable_files, gwfLoop_eq]
    simp

/-- C8 counterexample: a line containing the earliest-listed phrase twice
is not matched by that pattern, so containment does not determine the
result: the classifier skips the doubled added phrase and answers with the
later deleted pattern, and answers none when no later pattern matches,
where the claim's earliest-listed contains-precedence demands added with
the text following the phrase. -/
theorem C8_counterexample :
    occursIn ((" - added as ").toList)
      (("a - added as b - added as c - deleted as d").toList) = true ∧
    parse_p4_sync_line (("a - added as b - added as c - deleted as d").toList) =
      some (("del").toList, ("d").toList) ∧
    occursIn ((" - added as ").toList)
      (("a - added as b - added as c").toList) = true ∧
    parse_p4_sync_line (("a - added as b - added as c").toList) = none := by decide

/-- C8 (amended): the classifier checks the four patterns in the fixed
precedence order add, del, upd, clb, where a pattern matches only when its
phrase occurs exactly once (non-overlapping) in the line; the first
matching pattern determines the kind and the path is the text following
the phrase; a line matching no pattern yields none, and the function is
total. -/
theorem C8_classifier_precedence (line : List Char) :
    parse_p4_sync_line line = classify_spec line := by
  rw [parse_p4_sync_line, classify_spec]
  exact parseLoop_eq_classifyLoop line sync_patterns (by decide)

/-- C9: the marker commit message written by the sync command parses back to
exactly the recorded position; the parser also accepts the legacy
identifiers (a decimal number or pergit) in place of git-p4son, while the
written message always carries the git-p4son identifier. -/
theorem C9_marker_roundtrip :
    (∀ p : Nat, parseMarkerMsg (mk_commit_msg (p : Int)) = some p) ∧
    (∀ p : Nat, git_changelist_of_last_sync [mk_commit_msg (p : Int)] = some p) ∧
    (∀ p : Nat, parseMarkerMsg (("pergit").toList ++ markerMid ++ natToDecimal p) = some p) ∧
    (∀ n p : Nat, parseMarkerMsg (natToDecimal n ++ markerMid ++ natToDecimal p) = some p) ∧
    (∀ p : Nat, mk_commit_msg (p : Int) =
      ("git-p4son").toList ++ markerMid ++ natToDecimal p) := by
  have hmk : ∀ p : Nat, mk_commit_msg (p : Int) =
      ("git-p4son").toList ++ markerMid ++ natToDecimal p := by
    intro p
    rw [mk_commit_msg]
    have hco : intToDecimal (p : Int) = natToDecimal p := intToDecimal_ofNat p
    rw [hco]
    have hlit : ("git-p4son: p4 sync //...@").toList =
        ("git-p4son").toList ++ markerMid := by decide
    rw [hlit]
  refine ⟨?_, ?_, parseMarkerMsg_pergit, parseMarkerMsg_numeric, hmk⟩
  · intro p
    rw [hmk p]
    exact parseMarkerMsg_current p
  · intro p
    show parseMarkerMsg (mk_commit_msg (p : Int)) = some p
    rw [hmk p]
    exact parseMarkerMsg_current p

/-- C10: the reported synced total can be negative: whenever the clobber
count exceeds added plus updated the derived total is negative, because a
classified clobber line bumps both the processed counter and the clb count
feeding the total; a clobber-only stream of length two renders as
synced -2 files (clb: 2). -/
theorem C10_negative_total :
    (∀ p : P4SyncOutputProcessor, p.add + p.upd < p.clb → syncedCount p < 0) ∧
    (∀ st : P4SyncOutputProcessor,
      callLine st (cantClobberMark ++ ("x").toList) =
        { st with clb := st.clb + 1,
                  synced_file_count := st.synced_file_count + 1 }) ∧
    get_summary
      ([cantClobberMark ++ ("a").toList, cantClobberMark ++ ("b").toList].foldl
        callLine (initProcessor 2)) = ("synced -2 files (clb: 2)").toList := by
  refine ⟨?_, ?_, by decide⟩
  · intro p h
    unfold syncedCount
    omega
  · intro st
    have h1 : ¬(upToDateSearch (cantClobberMark ++ ("x").toList) = true) := by decide
    have h2 : parse_p4_sync_line (cantClobberMark ++ ("x").toList) =
        some (("clb").toList, ("x").toList) := by decide
    rw [callLine, if_neg h1, h2]
    dsimp only
    rw [if_neg (by decide)]
    rfl

/-- Witness for C10 at a concrete aggregator state. -/
theorem C10_negative_total_witness :
    syncedCount ⟨3, 9, 1, 0, 1, 3⟩ < 0 ∧
    callLine (initProcessor 5) (cantClobberMark ++ ("x").toList) =
      { initProcessor 5 with clb := 1, synced_file_count := 1 } := by
  constructor
  · exact C10_negative_total.1 ⟨3, 9, 1, 0, 1, 3⟩ (by decide)
  · exact C10_negative_total.2.1 (initProcessor 5)

/-- C4 counterexample: on a clobber line with trailing whitespace the
classifier keeps the whitespace, so the returned path is not the stripped
remainder the claim demands. -/
theorem C4_counterexample :
    parse_p4_sync_line (cantClobberMark ++ ("a.txt ").toList) =
      some (("clb").toList, ("a.txt ").toList) ∧
    pyRstrip (("a.txt ").toList) = ("a.txt").toList ∧
    parse_p4_sync_line (cantClobberMark ++ ("a.txt ").toList) ≠
      some (("clb").toList, pyRstrip (("a.txt ").toList)) := by decide

/-- C4 (amended): for a line beginning with the clobber mark, whose
remainder does not contain the mark again and which contains none of the
three earlier phrases, the classifier returns the clobber kind with the
raw remainder of the line, trailing whitespace preserved. -/
theorem C4_clobber_classify (rest : List Char)
    (hrest : occursIn cantClobberMark rest = false)
    (hadd : occursIn ((" - added as ").toList) (cantClobberMark ++ rest) = false)
    (hdel : occursIn ((" - deleted as ").toList) (cantClobberMark ++ rest) = false)
    (hupd : occursIn ((" - updating ").toList) (cantClobberMark ++ rest) = false) :
    parse_p4_sync_line (cantClobberMark ++ rest) = some (("clb").toList, rest) := by
  have pAdd : matchOnce ((" - added as ").toList) (cantClobberMark ++ rest) = none := by
    rw [matchOnce, findSplit_none_of_not_occurs _ _ hadd]
  have pDel : matchOnce ((" - deleted as ").toList) (cantClobberMark ++ rest) = none := by
    rw [matchOnce, findSplit_none_of_not_occurs _ _ hdel]
  have pUpd : matchOnce ((" - updating ").toList) (cantClobberMark ++ rest) = none := by
    rw [matchOnce, findSplit_none_of_not_occurs _ _ hupd]
  have pClb : matchOnce cantClobberMark (cantClobberMark ++ rest) = some rest := by
    rw [matchOnce, findSplit_at_head cantClobberMark rest (by decide)]
    simp [hrest]
  rw [parse_p4_sync_line]
  simp only [sync_patterns]
  rw [parseLoop_step _ _ _ _ (by decide), pAdd]
  rw [parseLoop_step _ _ _ _ (by decide), pDel]
  rw [parseLoop_step _ _ _ _ (by decide), pUpd]
  rw [parseLoop_step _ _ _ _ (by decide), pClb]

/-- Witness for the amended C4 at a concrete clobber line. -/
theorem C4_clobber_classify_witness :
    parse_p4_sync_line (cantClobberMark ++ ("w.txt").toList) =
      some (("clb").toList, ("w.txt").toList) :=
  C4_clobber_classify (("w.txt").toList) (by decide) (by decide) (by decide) (by decide)

/-! ## Controller helper lemmas -/

theorem p4_sync_head (env : Env) (cl : Int) (force : Bool) :
    ∃ rest, (p4_sync env cl force).2 = Event.pull cl :: rest := by
  simp only [p4_sync]
  split
  · exact ⟨[], rfl⟩
  · split
    · exact ⟨_, rfl⟩
    · split
      · exact ⟨_, rfl⟩
      · split
        · exact ⟨_, rfl⟩
        · exact ⟨_, rfl⟩

theorem finishTarget_trace (env : Env) (force : Bool) (target : Int) (acc : List Event) :
    ∃ tail, (finishTarget env force target acc).2 =
      acc ++ (p4_sync env target force).2 ++ tail ∧ pullsOf tail = [] := by
  unfold finishTarget
  rcases hT : p4_sync env target force with ⟨r2, evs2⟩
  cases r2 with
  | error e => exact ⟨[], by simp [pullsOf]⟩
  | ok b =>
    cases b with
    | false => exact ⟨[], by simp [pullsOf]⟩
    | true =>
      refine ⟨(if env.git_clean_after = false then [Event.addAll] else []) ++
        [Event.commit (mk_commit_msg target)], ?_, ?_⟩
      · dsimp only
        rw [List.append_assoc]
      · by_cases hg : env.git_clean_after = false <;>
          simp [hg, pullsOf, List.filterMap_cons, getPull]

/-- Common reduction: with clean workspaces and a numeric target resolved
through the alias store, the run is the guarded double-pull tail. -/
theorem sync_command_numeric (env : Env) (args : Args) (s : List Char) (target : Int)
    (hg : env.git_clean = true) (hp : env.p4_clean = true)
    (h1 : pyLower args.changelist ≠ latestTok)
    (h2 : pyLower args.changelist ≠ lastSyncedTok)
    (hres : env.resolve args.changelist = some s)
    (h3 : pyLower s ≠ latestTok) (h4 : pyLower s ≠ lastSyncedTok)
    (hnum : pyInt s = some target) :
    sync_command env args = afterResolve env args.force (lastOf env) target := by
  unfold sync_command
  rw [if_neg (by simp [hg]), if_neg (by simp [hp]), if_pos ⟨h1, h2⟩, hres]
  dsimp only
  unfold syncResolved
  rw [if_neg h4, if_neg h3, hnum]

/-! ## Claim C5 -/

/-- C5: with an existing current position and a resolved numeric target, a
target equal to the current position is a no-op success with zero pulls; a
smaller target without force fails before any pull; a smaller target with
force proceeds into the first pull. -/
theorem C5_compare_and_guard (env : Env) (args : Args) (s : List Char) (cur target : Int)
    (hg : env.git_clean = true) (hp : env.p4_clean = true)
    (h1 : pyLower args.changelist ≠ latestTok)
    (h2 : pyLower args.changelist ≠ lastSyncedTok)
    (hres : env.resolve args.changelist = some s)
    (h3 : pyLower s ≠ latestTok) (h4 : pyLower s ≠ lastSyncedTok)
    (hnum : pyInt s = some target)
    (hlast : lastOf env = some cur) :
    (target = cur → sync_command env args = (RunOutcome.exit 0, [])) ∧
    (target < cur → args.force = false → sync_command env args = (RunOutcome.exit 1, [])) ∧
    (target < cur → args.force = true →
      ∃ tail, (sync_command env args).2 = Event.pull cur :: tail) := by
  have hcmd := sync_command_numeric env args s target hg hp h1 h2 hres h3 h4 hnum
  rw [hcmd, hlast]
  refine ⟨?_, ?_, ?_⟩
  · intro he
    subst he
    unfold afterResolve
    rw [if_pos rfl]
  · intro hlt hforce
    unfold afterResolve
    rw [if_neg (by intro hh; simp only [Option.some.injEq] at hh; omega)]
    dsimp only
    rw [if_pos (by simp [hlt, hforce])]
  · intro hlt hforce
    unfold afterResolve
    rw [if_neg (by intro hh; simp only [Option.some.injEq] at hh; omega)]
    dsimp only
    rw [if_neg (by simp [hforce])]
    obtain ⟨rest, hrest⟩ := p4_sync_head env cur args.force
    rcases hE : p4_sync env cur args.force with ⟨r, evs⟩
    have hevs : evs = Event.pull cur :: rest := by
      rw [hE] at hrest
      exact hrest
    cases r with
    | error e => exact ⟨rest, hevs⟩
    | ok b =>
      cases b with
      | false => exact ⟨rest, hevs⟩
      | true =>
        obtain ⟨tail, htr, _⟩ := finishTarget_trace env args.force target evs
        refine ⟨rest ++ ((p4_sync env target args.force).2 ++ tail), ?_⟩
        show (finishTarget env args.force target evs).2 = _
        rw [htr, hevs]
        simp [List.append_assoc]

/-- Concrete environment for the C5 witness: clean workspaces, identity
alias store, marker at changelist 5, trivially succeeding pulls. -/
def c5Env : Env :=
  { git_clean := true
    p4_clean := true
    git_clean_after := true
    sync_log := [mk_commit_msg 5]
    latest := none
    resolve := fun s => some s
    dryCount := fun _ => 1
    pullRun := fun _ => ([], none)
    forceLines := fun _ _ => [] }

/-- Witness for C5: at the marker position 5, asking for 5 again is a no-op
success, asking for 3 without force is the fatal guard with no pull. -/
theorem C5_compare_and_guard_witness :
    sync_command c5Env { changelist := ("5").toList, force := false } =
      (RunOutcome.exit 0, []) ∧
    sync_command c5Env { changelist := ("3").toList, force := false } =
      (RunOutcome.exit 1, []) := by
  constructor
  · exact (C5_compare_and_guard c5Env { changelist := ("5").toList, force := false }
      (("5").toList) 5 5 rfl rfl (by decide) (by decide) rfl (by decide) (by decide)
      (by decide) (by decide)).1 rfl
  · exact (C5_compare_and_guard c5Env { changelist := ("3").toList, force := false }
      (("3").toList) 5 3 rfl rfl (by decide) (by decide) rfl (by decide) (by decide)
      (by decide) (by decide)).2.1 (by decide) rfl

/-! ## Claim C2 -/

/-- Concrete environment refuting C2 as stated: the first pull (to the
current position 5) fails on a clobber conflict without force, so the run
stops after a single pull attempt although the guard passed. -/
def c2Env : Env :=
  { git_clean := true
    p4_clean := true
    git_clean_after := true
    sync_log := [mk_commit_msg 5]
    latest := none
    resolve := fun s => some s
    dryCount := fun _ => 1
    pullRun := fun _ =>
      ([cantClobberMark ++ ("x").toList], some [cantClobberMark ++ ("x").toList])
    forceLines := fun _ _ => [] }

/-- C2 counterexample: current position 5 exists, the target resolves to 9,
the backward guard passes, yet only one pull attempt is issued because the
first attempt stops on conflicts. -/
theorem C2_counterexample :
    lastOf c2Env = some 5 ∧
    pyInt (("9").toList) = some 9 ∧
    (sync_command c2Env { changelist := ("9").toList, force := false }).1 =
      RunOutcome.exit 1 ∧
    pullsOf (sync_command c2Env { changelist := ("9").toList, force := false }).2 =
      [5] := by decide

/-- C2 (amended): when additionally the first pull attempt completes
successfully, exactly two pull attempts are issued, in order current then
target, and each ran attempt reports the summary of a fresh aggregator fed
only that attempt's output lines. -/
theorem C2_double_pull (env : Env) (args : Args) (s : List Char) (cur target : Int)
    (hg : env.git_clean = true) (hp : env.p4_clean = true)
    (h1 : pyLower args.changelist ≠ latestTok)
    (h2 : pyLower args.changelist ≠ lastSyncedTok)
    (hres : env.resolve args.changelist = some s)
    (h3 : pyLower s ≠ latestTok) (h4 : pyLower s ≠ lastSyncedTok)
    (hnum : pyInt s = some target)
    (hlast : lastOf env = some cur)
    (hne : target ≠ cur)
    (hguard : ¬(target < cur ∧ args.force = false))
    (hfirst : (p4_sync env cur args.force).1 = Except.ok true) :
    pullsOf (sync_command env args).2 = [cur, target] ∧
    (env.dryCount cur ≠ 0 →
      Event.summary (get_summary ((env.pullRun cur).1.foldl callLine
        (initProcessor ((env.dryCount cur : Nat) : Int)))) ∈ (sync_command env args).2) ∧
    (env.dryCount target ≠ 0 →
      Event.summary (get_summary ((env.pullRun target).1.foldl callLine
        (initProcessor ((env.dryCount target : Nat) : Int)))) ∈ (sync_command env args).2) := by
  have hcmd := sync_command_numeric env args s target hg hp h1 h2 hres h3 h4 hnum
  rw [hcmd, hlast]
  unfold afterResolve
  rw [if_neg (by intro hh; simp only [Option.some.injEq] at hh; exact hne hh.symm)]
  dsimp only
  rw [if_neg (by
    intro hb
    rw [Bool.and_eq_true, decide_eq_true_eq] at hb
    exact hguard ⟨hb.1, by simpa using hb.2⟩)]
  have hsum1 := p4_sync_reports env cur args.force
  have hpull1 := pulls_p4_sync env cur args.force
  rcases hE : p4_sync env cur args.force with ⟨r, evs⟩
  rw [hE] at hfirst hsum1 hpull1
  cases r with
  | error e => simp at hfirst
  | ok b =>
    cases b with
    | false => simp at hfirst
    | true =>
      dsimp only
      obtain ⟨tail, htr, htail⟩ := finishTarget_trace env args.force target evs
      rw [htr]
      have hsum2 := p4_sync_reports env target args.force
      have hpull2 := pulls_p4_sync env target args.force
      refine ⟨?_, ?_, ?_⟩
      · unfold pullsOf at hpull1 hpull2 htail ⊢
        rw [List.filterMap_append, List.filterMap_append, hpull1, hpull2, htail]
        rfl
      · intro h0
        obtain ⟨rest1, hrest1⟩ := hsum1 h0
        dsimp only at hrest1
        rw [hrest1]
        simp
      · intro h0
        obtain ⟨rest2, hrest2⟩ := hsum2 h0
        rw [List.mem_append, List.mem_append]
        exact Or.inl (Or.inr (by rw [hrest2]; simp))

/-- Concrete environment for the C2 witness: like the refuting one but with
pulls that succeed. -/
def c2EnvW : Env :=
  { git_clean := true
    p4_clean := true
    git_clean_after := true
    sync_log := [mk_commit_msg 5]
    latest := none
    resolve := fun s => some s
    dryCount := fun _ => 1
    pullRun := fun _ => ([], none)
    forceLines := fun _ _ => [] }

/-- Witness for the amended C2: both pulls succeed and the trace carries
exactly the two attempts 5 then 9. -/
theorem C2_double_pull_witness :
    pullsOf (sync_command c2EnvW { changelist := ("9").toList, force := false }).2 =
      [5, 9] :=
  (C2_double_pull c2EnvW { changelist := ("9").toList, force := false }
    (("9").toList) 5 9 rfl rfl (by decide) (by decide) rfl (by decide) (by decide)
    (by decide) (by decide) (by decide) (by decide) rfl).1

/-! ## Claim C1 -/

/-- Concrete environment refuting C1 as stated: a last-synced run with a
current position at 5 and a succeeding pull; the run reports success but
records no marker commit. -/
def c1Env : Env :=
  { git_clean := true
    p4_clean := true
    git_clean_after := true
    sync_log := [mk_commit_msg 5]
    latest := none
    resolve := fun s => some s
    dryCount := fun _ => 1
    pullRun := fun _ => ([], none)
    forceLines := fun _ _ => [] }

/-- C1 counterexample: the last-synced run succeeds after its single pull
at the current position 5, yet the trace contains no marker commit, against
the claimed RecordMarker step. -/
theorem C1_counterexample :
    lastOf c1Env = some 5 ∧
    (sync_command c1Env { changelist := ("last-synced").toList, force := false }).1 =
      RunOutcome.exit 0 ∧
    pullsOf (sync_command c1Env { changelist := ("last-synced").toList, force := false }).2 =
      [5] ∧
    hasCommit (sync_command c1Env { changelist := ("last-synced").toList, force := false }).2 =
      false := by decide

/-- C1 (amended): a last-synced run with no current position fails fatally
before any pull; with a current position c and a completing pull it performs
exactly one pull attempt at c and reports success with no marker commit
recorded. -/
theorem C1_last_synced (env : Env) (args : Args)
    (hg : env.git_clean = true) (hp : env.p4_clean = true)
    (hcl : pyLower args.changelist = lastSyncedTok) :
    (lastOf env = none → sync_command env args = (RunOutcome.exit 1, [])) ∧
    (∀ c : Int, lastOf env = some c →
      (p4_sync env c args.force).1 = Except.ok true →
      sync_command env args = (RunOutcome.exit 0, (p4_sync env c args.force).2) ∧
      pullsOf (sync_command env args).2 = [c] ∧
      hasCommit (sync_command env args).2 = false) := by
  have hred : sync_command env args = syncResolved env args.force args.changelist := by
    unfold sync_command
    rw [if_neg (by simp [hg]), if_neg (by simp [hp]),
      if_neg (by intro hcon; exact hcon.2 hcl)]
  constructor
  · intro hnone
    rw [hred]
    unfold syncResolved
    rw [if_pos hcl, hnone]
  · intro c hsome hok
    rw [hred]
    unfold syncResolved
    rw [if_pos hcl, hsome]
    dsimp only
    have hpull := pulls_p4_sync env c args.force
    have hnc := p4_sync_no_commit env c args.force
    rcases hE : p4_sync env c args.force with ⟨r, evs⟩
    rw [hE] at hok hpull hnc
    cases r with
    | error e => simp at hok
    | ok b =>
      cases b with
      | false => simp at hok
      | true => exact ⟨rfl, hpull, hnc⟩

/-- Witness for the amended C1 at the concrete environment. -/
theorem C1_last_synced_witness :
    sync_command c1Env { changelist := ("last-synced").toList, force := false } =
      (RunOutcome.exit 0, (p4_sync c1Env 5 false).2) :=
  ((C1_last_synced c1Env { changelist := ("last-synced").toList, force := false }
    rfl rfl (by decide)).2 5 (by decide) rfl).1

/-! ## Claim C3 -/

/-- C3: a failed pull with no clobber line in the captured stderr re-raises
the command failure; a failed pull whose stderr is entirely clobber lines,
without force, returns the non-fatal not-completed outcome after reporting
the conflict list, issuing no forced per-file sync; and a run that does not
exit successfully records no marker commit. -/
theorem C3_failure_handling :
    (∀ (env : Env) (cl : Int) (force : Bool) (stderr : List (List Char)),
      env.dryCount cl ≠ 0 → (env.pullRun cl).2 = some stderr →
      (∀ l ∈ stderr, cantClobberMark.isPrefixOf l = false) →
      (p4_sync env cl force).1 = Except.error stderr) ∧
    (∀ (env : Env) (cl : Int) (stderr : List (List Char)),
      env.dryCount cl ≠ 0 → (env.pullRun cl).2 = some stderr →
      stderr ≠ [] → (∀ l ∈ stderr, cantClobberMark.isPrefixOf l = true) →
      p4_sync env cl false =
        (Except.ok false,
          [Event.pull cl,
           Event.summary (get_summary ((env.pullRun cl).1.foldl callLine
             (initProcessor ((env.dryCount cl : Nat) : Int)))),
           Event.conflicts (get_writable_files stderr)])) ∧
    (∀ (env : Env) (args : Args), (sync_command env args).1 ≠ RunOutcome.exit 0 →
      hasCommit (sync_command env args).2 = false) :=
  ⟨p4_sync_fatal, p4_sync_conflicts, sync_command_no_commit⟩

/-- Concrete environment for the C3 witness: pull 7 fails with unrelated
stderr, pull 8 fails with one clobber line; no marker exists. -/
def c3Env : Env :=
  { git_clean := true
    p4_clean := true
    git_clean_after := true
    sync_log := []
    latest := none
    resolve := fun s => some s
    dryCount := fun _ => 1
    pullRun := fun cl =>
      if cl = 7 then ([], some [("boom").toList])
      else ([], some [cantClobberMark ++ ("f").toList])
    forceLines := fun _ _ => [] }

/-- Witness for C3 at the concrete environment. -/
theorem C3_failure_handling_witness :
    (p4_sync c3Env 7 false).1 = Except.error [("boom").toList] ∧
    (p4_sync c3Env 8 false).1 = Except.ok false ∧
    hasCommit (sync_command c3Env { changelist := ("8").toList, force := false }).2 =
      false := by
  refine ⟨C3_failure_handling.1 c3Env 7 false [("boom").toList]
      (by decide) (by decide) (by decide),
    ?_,
    C3_failure_handling.2.2 c3Env { changelist := ("8").toList, force := false }
      (by decide)⟩
  have h := C3_failure_handling.2.1 c3Env 8 [cantClobberMark ++ ("f").toList]
    (by decide) (by decide) (by decide) (by decide)
  rw [h]

end GitP4son